import Mathlib

/-!
Verification development for the multi-timeframe pullback trading engine.

The development shallowly embeds the three source modules:
* `strategy.py` — the `Candle` value type, the `Signal` enum and the stateless
  `PullbackStrategy.generate_signal` function;
* `backtest.py`  — the per-candle `PullbackBacktestAdapter.next` processing step
  over its instance state;
* `live_trader.py` — the body of the `LiveTrader.run` polling loop over its
  instance state (duplicate-timestamp skip, alignment gate, then the same
  aggregation / signal / order pipeline).

Prices are modelled as rationals (the sources only ever compare prices, never
round them); timestamps as naturals counting minutes, so the `datetime.minute`
field of a timestamp `ts` is `ts % 60`.  I/O (Binance calls, CSV writers,
printing, sleeping) is outside the embedded state; the rows appended to the
trade log and the sequence of generated signals are kept as explicit lists.
-/

namespace PullbackEngine

/-- Structure `Candle` from `strategy.py`: open and close price of one bar. -/
structure Candle where
  «open» : ℚ
  close : ℚ
  deriving DecidableEq, Repr

instance : Inhabited Candle := ⟨⟨0, 0⟩⟩

/-- Property `Candle.is_green`: bullish candle (`close > open`). -/
def Candle.is_green (c : Candle) : Bool := c.close > c.«open»

/-- Property `Candle.is_red`: bearish candle (`close < open`). -/
def Candle.is_red (c : Candle) : Bool := c.close < c.«open»

/-- Property `Candle.body`: candle body size (`close - open`). -/
def Candle.body (c : Candle) : ℚ := c.close - c.«open»

/-- Enum `Signal` from `strategy.py`. -/
inductive Signal where
  | BUY
  | SELL
  | HOLD
  deriving DecidableEq, Repr

/-- Function `PullbackStrategy.generate_signal` from `strategy.py`.
Python's negative indices `ltf_candles[-1]`, `ltf_candles[-2]`,
`htf_candles[-1]` are rendered with `List.getD` at `length - 1` / `length - 2`;
the guard `len(ltf_candles) < 2 or len(htf_candles) < 1` ensures those indices
are in range, so the `default` fallback is never reached. -/
def generate_signal (ltf_candles htf_candles : List Candle)
    (position_open : Bool) : Signal :=
  if ltf_candles.length < 2 ∨ htf_candles.length < 1 then Signal.HOLD
  else
    let current_ltf := ltf_candles.getD (ltf_candles.length - 1) default
    let previous_ltf := ltf_candles.getD (ltf_candles.length - 2) default
    let current_htf := htf_candles.getD (htf_candles.length - 1) default
    if current_htf.is_green = false then Signal.HOLD
    else if position_open = false ∧ previous_ltf.is_red ∧ current_ltf.is_green then
      Signal.BUY
    else if position_open = true ∧ current_ltf.is_red then Signal.SELL
    else Signal.HOLD

/-- An open trade: the dict created on entry in both `backtest.py`
(`current_trade`, with `"symbol": "BTCUSDT"`) and `live_trader.py`
(`self.current_trade`, with `"symbol": self.symbol`).  `direction` is always
`"LONG"` in both sources. -/
structure OpenTrade where
  symbol : String
  direction : String
  entry_time : ℕ
  entry_price : ℚ
  entry_candle : ℕ
  entry_htf : ℕ
  deriving DecidableEq, Repr

/-- A completed trade: the open trade updated with exit fields, as appended to
`trades_log` (`backtest.py`) resp. written to `live_trades.csv`
(`live_trader.py`). -/
structure TradeRecord where
  symbol : String
  direction : String
  entry_time : ℕ
  entry_price : ℚ
  entry_candle : ℕ
  entry_htf : ℕ
  exit_time : ℕ
  exit_price : ℚ
  exit_candle : ℕ
  exit_htf : ℕ
  deriving DecidableEq, Repr

/-- The `current_trade.update({...})` call on exit: complete an open trade. -/
def completeTrade (t : OpenTrade) (exit_time : ℕ) (exit_price : ℚ)
    (exit_candle exit_htf : ℕ) : TradeRecord :=
  { symbol := t.symbol, direction := t.direction, entry_time := t.entry_time,
    entry_price := t.entry_price, entry_candle := t.entry_candle,
    entry_htf := t.entry_htf,
    exit_time := exit_time, exit_price := exit_price,
    exit_candle := exit_candle, exit_htf := exit_htf }

/-- The instance state of `PullbackBacktestAdapter` (`backtest.py`, `init`),
plus `signals`, the observation trace of every value returned by
`generate_signal` during the run (the adapter computes one such value per
candle once the minimum-data guard passes). -/
structure BacktestState where
  ltf_candles : List Candle
  htf_candles : List Candle
  htf_bucket : List Candle
  htf_pending : Option Candle
  htf_available_next : Bool
  current_trade : Option OpenTrade
  trades_log : List TradeRecord
  candle_count : ℕ
  htf_count : ℕ
  signals : List Signal
  deriving DecidableEq, Repr

/-- Method `PullbackBacktestAdapter.init`: empty buffers, zero counters. -/
def backtestInit : BacktestState :=
  { ltf_candles := [], htf_candles := [], htf_bucket := [],
    htf_pending := none, htf_available_next := false,
    current_trade := none, trades_log := [],
    candle_count := 0, htf_count := 0, signals := [] }

/-- Method `PullbackBacktestAdapter.next` from `backtest.py`: one call per
closed LTF candle.  `ts` is `self.data.index[-1]` and `bar` is the candle
built from `self.data.Open[-1]` / `self.data.Close[-1]`;
`price = self.data.Close[-1]` is therefore `bar.close`.  The broker calls
`self.buy(size=0.1)` / `self.sell()` are external side effects and are not
part of the state. -/
def backtestNext (s : BacktestState) (ts : ℕ) (bar : Candle) : BacktestState :=
  -- self.candle_count += 1
  let s := { s with candle_count := s.candle_count + 1 }
  -- if self._htf_available_next and self._htf_pending is not None: promote
  let s :=
    match s.htf_available_next, s.htf_pending with
    | true, some h =>
        { s with htf_candles := s.htf_candles ++ [h],
                 htf_count := s.htf_count + 1,
                 htf_pending := none, htf_available_next := false }
    | _, _ => s
  -- self.ltf_candles.append(ltf_candle)
  let s := { s with ltf_candles := s.ltf_candles ++ [bar] }
  -- self._htf_bucket.append(ltf_candle); if len == 5: synthesize and clear
  let s := { s with htf_bucket := s.htf_bucket ++ [bar] }
  let s :=
    if s.htf_bucket.length = 5 then
      { s with htf_pending := some (Candle.mk
                 (s.htf_bucket.getD 0 default).«open»
                 (s.htf_bucket.getD (s.htf_bucket.length - 1) default).close),
               htf_available_next := true, htf_bucket := [] }
    else s
  -- if len(self.ltf_candles) < 2 or len(self.htf_candles) < 1: return
  if s.ltf_candles.length < 2 ∨ s.htf_candles.length < 1 then s
  else
    let signal := generate_signal s.ltf_candles s.htf_candles s.current_trade.isSome
    let s := { s with signals := s.signals ++ [signal] }
    let price := bar.close
    match signal with
    | Signal.BUY =>
        match s.current_trade with
        | some _ => s  -- return: already in position
        | none =>
            { s with current_trade := some (OpenTrade.mk
                  "BTCUSDT" "LONG" ts price s.candle_count s.htf_count) }
    | Signal.SELL =>
        match s.current_trade with
        | none => s  -- return: no position to close
        | some tr =>
            { s with current_trade := none,
                     trades_log := s.trades_log ++
                       [completeTrade tr ts price s.candle_count s.htf_count] }
    | Signal.HOLD => s

/-- Replay a whole candle sequence through `PullbackBacktestAdapter.next`. -/
def backtestRun (inputs : List (ℕ × Candle)) : BacktestState :=
  inputs.foldl (fun s p => backtestNext s p.1 p.2) backtestInit

/-- The instance state of `LiveTrader` (`live_trader.py`, `__init__`), plus
the same `signals` observation trace as `BacktestState`.  `trades_log` is the
list of rows written to `live_trades.csv`. -/
structure LiveState where
  symbol : String
  ltf_candles : List Candle
  htf_candles : List Candle
  htf_bucket : List Candle
  htf_pending : Option Candle
  htf_available_next : Bool
  alignment_complete : Bool
  last_candle_ts : Option ℕ
  current_trade : Option OpenTrade
  trades_log : List TradeRecord
  candle_count : ℕ
  htf_count : ℕ
  signals : List Signal
  deriving DecidableEq, Repr

/-- Constructor `LiveTrader.__init__`: empty buffers, gate closed, no last
timestamp. -/
def liveInit (symbol : String) : LiveState :=
  { symbol := symbol, ltf_candles := [], htf_candles := [], htf_bucket := [],
    htf_pending := none, htf_available_next := false,
    alignment_complete := false, last_candle_ts := none,
    current_trade := none, trades_log := [],
    candle_count := 0, htf_count := 0, signals := [] }

/-- The post-alignment body of one `LiveTrader.run` iteration: promote the
pending HTF candle, count and store the new LTF candle, aggregate, check the
minimum-data guard, generate the signal and execute.
`price = candle_ltf.close`.  The Binance order calls and the CSV candle log
are external side effects. -/
def liveProcess (s : LiveState) (ts : ℕ) (bar : Candle) : LiveState :=
  -- if self._htf_available_next and self._htf_pending is not None: promote
  let s :=
    match s.htf_available_next, s.htf_pending with
    | true, some h =>
        { s with htf_candles := s.htf_candles ++ [h],
                 htf_count := s.htf_count + 1,
                 htf_pending := none, htf_available_next := false }
    | _, _ => s
  -- self.candle_count += 1; self.ltf_candles.append(candle_ltf)
  let s := { s with candle_count := s.candle_count + 1,
                    ltf_candles := s.ltf_candles ++ [bar] }
  -- self._htf_bucket.append(candle_ltf); if len == 5: synthesize and clear
  let s := { s with htf_bucket := s.htf_bucket ++ [bar] }
  let s :=
    if s.htf_bucket.length = 5 then
      { s with htf_pending := some (Candle.mk
                 (s.htf_bucket.getD 0 default).«open»
                 (s.htf_bucket.getD (s.htf_bucket.length - 1) default).close),
               htf_available_next := true, htf_bucket := [] }
    else s
  -- if len(self.ltf_candles) < 2 or len(self.htf_candles) < 1: continue
  if s.ltf_candles.length < 2 ∨ s.htf_candles.length < 1 then s
  else
    let signal := generate_signal s.ltf_candles s.htf_candles s.current_trade.isSome
    let s := { s with signals := s.signals ++ [signal] }
    let price := bar.close
    -- if signal == BUY and current_trade is None / elif signal == SELL and ...
    match signal, s.current_trade with
    | Signal.BUY, none =>
        { s with current_trade := some (OpenTrade.mk
            s.symbol "LONG" ts price s.candle_count s.htf_count) }
    | Signal.SELL, some tr =>
        { s with current_trade := none,
                 trades_log := s.trades_log ++
                   [completeTrade tr ts price s.candle_count s.htf_count] }
    | _, _ => s

/-- One `LiveTrader.run` loop iteration for a freshly fetched closed candle
`(bar, ts)`: skip if the timestamp equals `self.last_candle_ts`, record the
timestamp, run the alignment gate (`ts.minute % 5 == 0`, with
`minute = ts % 60`), and if aligned process the candle. -/
def liveStep (s : LiveState) (ts : ℕ) (bar : Candle) : LiveState :=
  if some ts = s.last_candle_ts then s
  else
    let s := { s with last_candle_ts := some ts }
    if s.alignment_complete = false ∧ ts % 60 % 5 ≠ 0 then s
    else
      let s := { s with alignment_complete := true }
      liveProcess s ts bar

/-- Drive a whole candle sequence, one per loop iteration, through
`LiveTrader.run`. -/
def liveRun (symbol : String) (inputs : List (ℕ × Candle)) : LiveState :=
  inputs.foldl (fun s p => liveStep s p.1 p.2) (liveInit symbol)

/-- The signal-execution block shared by the two call sites
(`backtest.py` lines 105–135 and `live_trader.py` lines 272–320): the
PositionTracker of the specification.  Given the generated signal and the
tick's timestamp, price and counters, it returns the new position state and
trade log.  BUY while a position is open and SELL while flat are no-ops in
both sources (`return` in the adapter, a failed `and` guard in the live
loop). -/
def executeOrders (symbol : String) (signal : Signal) (ts : ℕ) (price : ℚ)
    (candle_count htf_count : ℕ) (current_trade : Option OpenTrade)
    (trades_log : List TradeRecord) : Option OpenTrade × List TradeRecord :=
  match signal, current_trade with
  | Signal.BUY, none =>
      (some { symbol := symbol, direction := "LONG",
              entry_time := ts, entry_price := price,
              entry_candle := candle_count, entry_htf := htf_count },
       trades_log)
  | Signal.SELL, some tr =>
      (none, trades_log ++ [completeTrade tr ts price candle_count htf_count])
  | _, ct => (ct, trades_log)

/-- The aggregation phase of `backtestNext` (count, promote, store, bucket),
split out for proofs; `backtestNext_decomp` shows the split is definitional. -/
def aggPhase (s : BacktestState) (bar : Candle) : BacktestState :=
  let s := { s with candle_count := s.candle_count + 1 }
  let s :=
    match s.htf_available_next, s.htf_pending with
    | true, some h =>
        { s with htf_candles := s.htf_candles ++ [h],
                 htf_count := s.htf_count + 1,
                 htf_pending := none, htf_available_next := false }
    | _, _ => s
  let s := { s with ltf_candles := s.ltf_candles ++ [bar] }
  let s := { s with htf_bucket := s.htf_bucket ++ [bar] }
  if s.htf_bucket.length = 5 then
    { s with htf_pending := some (Candle.mk
               (s.htf_bucket.getD 0 default).«open»
               (s.htf_bucket.getD (s.htf_bucket.length - 1) default).close),
             htf_available_next := true, htf_bucket := [] }
  else s

/-- The signal/execution phase of `backtestNext`, split out for proofs. -/
def execPhase (s : BacktestState) (ts : ℕ) (bar : Candle) : BacktestState :=
  if s.ltf_candles.length < 2 ∨ s.htf_candles.length < 1 then s
  else
    let signal := generate_signal s.ltf_candles s.htf_candles s.current_trade.isSome
    let s := { s with signals := s.signals ++ [signal] }
    let price := bar.close
    match signal with
    | Signal.BUY =>
        match s.current_trade with
        | some _ => s
        | none =>
            { s with current_trade := some (OpenTrade.mk
                  "BTCUSDT" "LONG" ts price s.candle_count s.htf_count) }
    | Signal.SELL =>
        match s.current_trade with
        | none => s
        | some tr =>
            { s with current_trade := none,
                     trades_log := s.trades_log ++
                       [completeTrade tr ts price s.candle_count s.htf_count] }
    | Signal.HOLD => s

/-- Projection of a live-trader state onto the adapter state: the engine
fields shared by the two drivers. -/
def toBacktest (l : LiveState) : BacktestState :=
  { ltf_candles := l.ltf_candles, htf_candles := l.htf_candles,
    htf_bucket := l.htf_bucket, htf_pending := l.htf_pending,
    htf_available_next := l.htf_available_next, current_trade := l.current_trade,
    trades_log := l.trades_log, candle_count := l.candle_count,
    htf_count := l.htf_count, signals := l.signals }

/-- The aggregation phase of `liveProcess` (promote, count+store, bucket). -/
def liveAggPhase (s : LiveState) (bar : Candle) : LiveState :=
  let s :=
    match s.htf_available_next, s.htf_pending with
    | true, some h =>
        { s with htf_candles := s.htf_candles ++ [h],
                 htf_count := s.htf_count + 1,
                 htf_pending := none, htf_available_next := false }
    | _, _ => s
  let s := { s with candle_count := s.candle_count + 1,
                    ltf_candles := s.ltf_candles ++ [bar] }
  let s := { s with htf_bucket := s.htf_bucket ++ [bar] }
  if s.htf_bucket.length = 5 then
    { s with htf_pending := some (Candle.mk
               (s.htf_bucket.getD 0 default).«open»
               (s.htf_bucket.getD (s.htf_bucket.length - 1) default).close),
             htf_available_next := true, htf_bucket := [] }
  else s

/-- The signal/execution phase of `liveProcess`. -/
def liveExecPhase (s : LiveState) (ts : ℕ) (bar : Candle) : LiveState :=
  if s.ltf_candles.length < 2 ∨ s.htf_candles.length < 1 then s
  else
    let signal := generate_signal s.ltf_candles s.htf_candles s.current_trade.isSome
    let s := { s with signals := s.signals ++ [signal] }
    let price := bar.close
    match signal, s.current_trade with
    | Signal.BUY, none =>
        { s with current_trade := some (OpenTrade.mk
            s.symbol "LONG" ts price s.candle_count s.htf_count) }
    | Signal.SELL, some tr =>
        { s with current_trade := none,
                 trades_log := s.trades_log ++
                   [completeTrade tr ts price s.candle_count s.htf_count] }
    | _, _ => s

/-- The HTF candle the specification expects at index `n`: open of the LTF
candle at position `5n`, close of the LTF candle at position `5n+4`. -/
def mkHTF (cs : List Candle) (n : ℕ) : Candle :=
  ⟨(cs.getD (5 * n) default).«open», (cs.getD (5 * n + 4) default).close⟩

/-- Number of HTF candles visible after `k` LTF ticks (one-tick delay). -/
def visibleCnt (k : ℕ) : ℕ := if k = 0 then 0 else (k - 1) / 5

/-- Full characterisation of the aggregation fields of the adapter state
after processing `inputs`. -/
def AggSpec (inputs : List (ℕ × Candle)) (s : BacktestState) : Prop :=
  s.candle_count = inputs.length ∧
  s.ltf_candles = inputs.map Prod.snd ∧
  s.htf_bucket = (inputs.map Prod.snd).drop (5 * (inputs.length / 5)) ∧
  s.htf_count = visibleCnt inputs.length ∧
  s.htf_candles = (List.range (visibleCnt inputs.length)).map (mkHTF (inputs.map Prod.snd)) ∧
  s.htf_pending = (if inputs.length ≠ 0 ∧ inputs.length % 5 = 0 then
      some (mkHTF (inputs.map Prod.snd) (inputs.length / 5 - 1)) else none) ∧
  s.htf_available_next = decide (inputs.length ≠ 0 ∧ inputs.length % 5 = 0)

/-- A green example candle. -/
def exG : Candle := ⟨1, 2⟩

/-- A red example candle. -/
def exR : Candle := ⟨2, 1⟩


/-- Python's `l[-1]`, rendered as `getD (length - 1)`, is the last element. -/
lemma getD_eq_getLast? {α} [Inhabited α] {l : List α} {c : α}
    (h : l.getLast? = some c) : l.getD (l.length - 1) default = c := by
  rw [List.getD_eq_getElem?_getD]
  rw [List.getLast?_eq_getElem?] at h
  simp [h]

/-- On a list ending in `[a, b]`, Python's `l[-2]` is `a`. -/
lemma getD_append_pen {α} [Inhabited α] (l : List α) (a b : α) :
    (l ++ [a, b]).getD l.length default = a := by
  induction l with
  | nil => rfl
  | cons x xs ih => simpa using ih

/-- On a list ending in `[a, b]`, Python's `l[-1]` is `b`. -/
lemma getD_append_last {α} [Inhabited α] (l : List α) (a b : α) :
    (l ++ [a, b]).getD (l.length + 1) default = b := by
  induction l with
  | nil => rfl
  | cons x xs ih => simpa using ih

lemma getD_drop {α} [Inhabited α] (l : List α) (n i : ℕ) :
    (l.drop n).getD i default = l.getD (n + i) default := by
  rw [List.getD_eq_getElem?_getD, List.getD_eq_getElem?_getD, List.getElem?_drop]

lemma getD_range_map {α} [Inhabited α] (f : ℕ → α) (m n : ℕ) (h : n < m) :
    ((List.range m).map f).getD n default = f n := by
  rw [List.getD_eq_getElem?_getD]
  simp [List.getElem?_map, List.getElem?_range h]

lemma getD_take {α} [Inhabited α] (l : List α) (m i : ℕ) (h : i < m) :
    (l.take m).getD i default = l.getD i default := by
  rw [List.getD_eq_getElem?_getD, List.getD_eq_getElem?_getD, List.getElem?_take,
    if_pos h]

lemma mkHTF_append (cs : List Candle) (c : Candle) (n : ℕ)
    (h : 5 * n + 4 < cs.length) : mkHTF (cs ++ [c]) n = mkHTF cs n := by
  unfold mkHTF
  rw [List.getD_append _ _ _ _ (by omega), List.getD_append _ _ _ _ h]

lemma map_mkHTF_append (cs : List Candle) (c : Candle) (m : ℕ)
    (h : 5 * m ≤ cs.length) :
    (List.range m).map (mkHTF (cs ++ [c])) = (List.range m).map (mkHTF cs) := by
  apply List.map_congr_left
  intro n hn
  rw [List.mem_range] at hn
  exact mkHTF_append _ _ _ (by omega)

lemma mkHTF_take (inputs : List (ℕ × Candle)) (m n : ℕ) (h : 5 * n + 4 < m) :
    mkHTF ((inputs.take m).map Prod.snd) n = mkHTF (inputs.map Prod.snd) n := by
  unfold mkHTF
  rw [List.map_take]
  rw [getD_take _ _ _ (by omega), getD_take _ _ _ h]

lemma backtestNext_decomp (s : BacktestState) (ts : ℕ) (bar : Candle) :
    backtestNext s ts bar = execPhase (aggPhase s bar) ts bar := rfl

/-- The execution phase never touches the aggregation fields. -/
lemma execPhase_agg (s : BacktestState) (ts : ℕ) (bar : Candle) :
    (execPhase s ts bar).candle_count = s.candle_count ∧
    (execPhase s ts bar).ltf_candles = s.ltf_candles ∧
    (execPhase s ts bar).htf_bucket = s.htf_bucket ∧
    (execPhase s ts bar).htf_count = s.htf_count ∧
    (execPhase s ts bar).htf_candles = s.htf_candles ∧
    (execPhase s ts bar).htf_pending = s.htf_pending ∧
    (execPhase s ts bar).htf_available_next = s.htf_available_next := by
  unfold execPhase
  split
  · exact ⟨rfl, rfl, rfl, rfl, rfl, rfl, rfl⟩
  · cases hsig : generate_signal s.ltf_candles s.htf_candles s.current_trade.isSome <;>
      cases hct : s.current_trade <;>
      simp [hsig, hct]


/-- One `backtestNext` step preserves the aggregation invariant. -/
lemma aggSpec_step (inputs : List (ℕ × Candle)) (s : BacktestState)
    (ts : ℕ) (c : Candle) (h : AggSpec inputs s) :
    AggSpec (inputs ++ [(ts, c)]) (backtestNext s ts c) := by
  rw [backtestNext_decomp]
  obtain ⟨e1, e2, e3, e4, e5, e6, e7⟩ := execPhase_agg (aggPhase s c) ts c
  obtain ⟨h1, h2, h3, h4, h5, h6, h7⟩ := h
  unfold AggSpec
  rw [e1, e2, e3, e4, e5, e6, e7]
  obtain ⟨ltf, htf, bucket, pend, avail, ct, log, cc, hc, sig⟩ := s
  simp only at h1 h2 h3 h4 h5 h6 h7
  subst h1 h2 h3 h4 h5 h6 h7
  set k := inputs.length with hk
  set cs := inputs.map Prod.snd with hcs
  have hcslen : cs.length = k := by rw [hcs, List.length_map, hk]
  have hlen' : (inputs ++ [(ts, c)]).length = k + 1 := by simp [hk]
  have hcs' : (inputs ++ [(ts, c)]).map Prod.snd = cs ++ [c] := by simp [hcs]
  rw [hlen', hcs']
  by_cases hA : k ≠ 0 ∧ k % 5 = 0
  · -- promotion tick: pending HTF becomes visible, bucket restarts with [c]
    have hdec : decide (k ≠ 0 ∧ k % 5 = 0) = true := by simp [hA]
    have hpend : (if k ≠ 0 ∧ k % 5 = 0 then some (mkHTF cs (k / 5 - 1)) else none)
        = some (mkHTF cs (k / 5 - 1)) := if_pos hA
    have hbold : cs.drop (5 * (k / 5)) = [] :=
      List.drop_eq_nil_of_le (by omega)
    have hvk : visibleCnt k = (k - 1) / 5 := by
      unfold visibleCnt
      rw [if_neg hA.1]
    have hvk1 : visibleCnt (k + 1) = (k - 1) / 5 + 1 := by
      unfold visibleCnt
      rw [if_neg (by omega)]
      omega
    simp only [aggPhase, hdec, hpend, hbold]
    rw [if_neg (by simp)]
    dsimp only
    refine ⟨rfl, rfl, ?_, ?_, ?_, ?_, ?_⟩
    · -- bucket
      rw [List.drop_append_of_le_length (by omega)]
      have h5 : 5 * ((k + 1) / 5) = k := by omega
      rw [h5, List.drop_eq_nil_of_le (by omega), List.nil_append]
    · -- htf_count
      rw [hvk, hvk1]
    · -- htf_candles
      rw [hvk, hvk1, List.range_succ, List.map_append, List.map_singleton]
      rw [map_mkHTF_append cs c _ (by omega)]
      rw [mkHTF_append cs c _ (by omega)]
      have h15 : (k - 1) / 5 = k / 5 - 1 := by omega
      rw [h15]
    · -- htf_pending
      rw [if_neg (by omega)]
    · -- htf_available_next
      have hx : (k + 1) % 5 ≠ 0 := by omega
      simp [hx]
  · -- no promotion this tick
    have hdec : decide (k ≠ 0 ∧ k % 5 = 0) = false := by
      simp only [decide_eq_false_iff_not]
      tauto
    have hpend : (if k ≠ 0 ∧ k % 5 = 0 then some (mkHTF cs (k / 5 - 1)) else none)
        = none := if_neg hA
    simp only [aggPhase, hdec, hpend]
    have hblen : (cs.drop (5 * (k / 5)) ++ [c]).length = k % 5 + 1 := by
      simp only [List.length_append, List.length_drop, hcslen, List.length_singleton]
      omega
    by_cases hB : k % 5 = 4
    · -- fifth push: bucket fills, HTF candle synthesized, bucket cleared
      rw [if_pos (by rw [hblen]; omega)]
      dsimp only
      have hvk : visibleCnt k = visibleCnt (k + 1) := by
        unfold visibleCnt
        rw [if_neg (by omega), if_neg (by omega)]
        omega
      have hstep1 : (cs.drop (5 * (k / 5)) ++ [c]).getD 0 default
          = cs.getD (5 * (k / 5)) default := by
        rw [List.getD_append _ _ _ _ (by simp only [List.length_drop, hcslen]; omega),
          getD_drop]
        rfl
      have hstep2 : (cs.drop (5 * (k / 5)) ++ [c]).getD
            ((cs.drop (5 * (k / 5)) ++ [c]).length - 1) default = c := by
        rw [hblen, hB]
        rw [List.getD_append_right _ _ _ _
          (by simp only [List.length_drop, hcslen]; omega)]
        simp only [List.length_drop, hcslen]
        have h40 : 4 + 1 - 1 - (k - 5 * (k / 5)) = 0 := by omega
        rw [h40]
        rfl
      refine ⟨rfl, rfl, ?_, ?_, ?_, ?_, ?_⟩
      · -- bucket cleared
        have h51 : 5 * ((k + 1) / 5) = k + 1 := by omega
        rw [h51, List.drop_eq_nil_of_le (by simp [hcslen])]
      · -- htf_count unchanged
        rw [hvk]
      · -- htf_candles unchanged (up to stability of earlier positions)
        rw [hvk, map_mkHTF_append cs c _ ?_]
        have hvk1 : visibleCnt (k + 1) = (k - 1) / 5 := by
          unfold visibleCnt
          rw [if_neg (by omega)]
          omega
        rw [hvk1]
        omega
      · -- pending = freshly synthesized HTF candle
        rw [if_pos (by omega)]
        rw [hstep1, hstep2]
        unfold mkHTF
        have h5b : 5 * ((k + 1) / 5 - 1) + 4 = k := by omega
        have h5a : 5 * ((k + 1) / 5 - 1) = 5 * (k / 5) := by omega
        rw [h5b, h5a]
        rw [List.getD_append _ _ _ _ (by rw [hcslen]; omega)]
        rw [List.getD_append_right _ _ _ _ (by rw [hcslen])]
        rw [hcslen]
        simp
      · -- available next tick
        have hx : (k + 1) % 5 = 0 := by omega
        simp [hx]
    · -- ordinary tick: bucket keeps growing
      rw [if_neg (by rw [hblen]; omega)]
      dsimp only
      have hvk : visibleCnt k = visibleCnt (k + 1) := by
        unfold visibleCnt
        split <;> split <;> omega
      refine ⟨rfl, rfl, ?_, ?_, ?_, ?_, ?_⟩
      · -- bucket grows by one
        have h51 : (k + 1) / 5 = k / 5 := by omega
        rw [h51, List.drop_append_of_le_length (by rw [hcslen]; omega)]
      · -- htf_count unchanged
        rw [hvk]
      · -- htf_candles unchanged (up to stability of earlier positions)
        rw [hvk, map_mkHTF_append cs c _ ?_]
        have hle : visibleCnt (k + 1) ≤ k / 5 := by
          unfold visibleCnt
          split <;> omega
        rw [hcslen]
        omega
      · -- still no pending
        rw [if_neg (by omega)]
      · -- not available
        have hx : (k + 1) % 5 ≠ 0 := by omega
        simp [hx]


/-- The aggregation invariant holds after replaying any candle sequence. -/
lemma backtestRun_aggSpec (inputs : List (ℕ × Candle)) :
    AggSpec inputs (backtestRun inputs) := by
  induction inputs using List.reverseRecOn with
  | nil =>
      exact ⟨rfl, rfl, rfl, rfl, rfl, rfl, rfl⟩
  | append_singleton xs x ih =>
      unfold backtestRun
      rw [List.foldl_append]
      exact aggSpec_step xs _ x.1 x.2 ih

lemma liveProcess_decomp (s : LiveState) (ts : ℕ) (bar : Candle) :
    liveProcess s ts bar = liveExecPhase (liveAggPhase s bar) ts bar := rfl

/-- The live aggregation phase simulates the adapter aggregation phase and
leaves the live-only fields untouched. -/
lemma liveAggPhase_sim (l : LiveState) (bar : Candle) :
    toBacktest (liveAggPhase l bar) = aggPhase (toBacktest l) bar ∧
    (liveAggPhase l bar).symbol = l.symbol ∧
    (liveAggPhase l bar).alignment_complete = l.alignment_complete ∧
    (liveAggPhase l bar).last_candle_ts = l.last_candle_ts := by
  obtain ⟨sym, ltf, htf, bucket, pend, avail, al, last, ct, log, cc, hc, sig⟩ := l
  cases avail <;> cases pend <;>
    · dsimp only [liveAggPhase, aggPhase, toBacktest]
      by_cases hb : (bucket ++ [bar]).length = 5
      · simp only [if_pos hb]
        refine ⟨?_, ?_, ?_, ?_⟩ <;> first | rfl | trivial
      · simp only [if_neg hb]
        refine ⟨?_, ?_, ?_, ?_⟩ <;> first | rfl | trivial

/-- The live execution phase simulates the adapter execution phase when the
symbol is the adapter's hard-coded `"BTCUSDT"`. -/
lemma liveExecPhase_sim (l : LiveState) (ts : ℕ) (bar : Candle)
    (hsym : l.symbol = "BTCUSDT") :
    toBacktest (liveExecPhase l ts bar) = execPhase (toBacktest l) ts bar ∧
    (liveExecPhase l ts bar).symbol = l.symbol ∧
    (liveExecPhase l ts bar).alignment_complete = l.alignment_complete ∧
    (liveExecPhase l ts bar).last_candle_ts = l.last_candle_ts := by
  obtain ⟨sym, ltf, htf, bucket, pend, avail, al, last, ct, log, cc, hc, sig⟩ := l
  subst hsym
  dsimp only [liveExecPhase, execPhase, toBacktest]
  by_cases hg : ltf.length < 2 ∨ htf.length < 1
  · simp only [if_pos hg]
    refine ⟨?_, ?_, ?_, ?_⟩ <;> first | rfl | trivial
  · simp only [if_neg hg]
    cases hsig : generate_signal ltf htf ct.isSome <;> cases ct <;>
      simp only [hsig] <;> refine ⟨?_, ?_, ?_, ?_⟩ <;> first | rfl | trivial


/-- One aligned, fresh-timestamp iteration of the live loop simulates one
adapter step. -/
lemma liveStep_sim (l : LiveState) (ts : ℕ) (bar : Candle)
    (hsym : l.symbol = "BTCUSDT")
    (hfresh : ¬ some ts = l.last_candle_ts)
    (halign : l.alignment_complete = true ∨ ts % 60 % 5 = 0) :
    toBacktest (liveStep l ts bar) = backtestNext (toBacktest l) ts bar ∧
    (liveStep l ts bar).symbol = "BTCUSDT" ∧
    (liveStep l ts bar).alignment_complete = true ∧
    (liveStep l ts bar).last_candle_ts = some ts := by
  have hcond : ¬ (l.alignment_complete = false ∧ ts % 60 % 5 ≠ 0) := by
    rcases halign with h | h
    · intro hc
      rw [h] at hc
      exact Bool.noConfusion hc.1
    · intro hc
      exact hc.2 h
  unfold liveStep
  rw [if_neg hfresh]
  rw [if_neg hcond]
  rw [liveProcess_decomp, backtestNext_decomp]
  have h1 := liveAggPhase_sim
    { l with last_candle_ts := some ts, alignment_complete := true } bar
  have h2 := liveExecPhase_sim
    (liveAggPhase { l with last_candle_ts := some ts, alignment_complete := true } bar)
    ts bar (by rw [h1.2.1]; exact hsym)
  refine ⟨?_, ?_, ?_, ?_⟩
  · rw [h2.1, h1.1]
    rfl
  · rw [h2.2.1, h1.2.1]
    exact hsym
  · rw [h2.2.2.1, h1.2.2.1]
  · rw [h2.2.2.2, h1.2.2.2]

/-- Running the two drivers in lockstep from corresponding states yields
corresponding states, provided timestamps keep increasing. -/
lemma liveRun_sim_aux (inputs : List (ℕ × Candle)) :
    ∀ (l : LiveState), l.symbol = "BTCUSDT" → l.alignment_complete = true →
    (inputs.map Prod.fst).Pairwise (· < ·) →
    (∀ u, l.last_candle_ts = some u → ∀ p ∈ inputs, u < p.1) →
    toBacktest (inputs.foldl (fun s p => liveStep s p.1 p.2) l)
      = inputs.foldl (fun s p => backtestNext s p.1 p.2) (toBacktest l) := by
  induction inputs with
  | nil =>
      intro l _ _ _ _
      rfl
  | cons p rest ih =>
      intro l hsym halign hpw hlast
      have hfresh : ¬ some p.1 = l.last_candle_ts := by
        intro hcon
        have := hlast p.1 hcon.symm p (List.mem_cons_self ..)
        omega
      obtain ⟨hstep, hs2, ha2, hl2⟩ := liveStep_sim l p.1 p.2 hsym hfresh (Or.inl halign)
      rw [List.foldl_cons, List.foldl_cons, ← hstep]
      rw [List.map_cons] at hpw
      apply ih _ hs2 ha2 (List.pairwise_cons.mp hpw).2
      intro u hu q hq
      rw [hl2] at hu
      have hup : p.1 = u := by injection hu
      rw [← hup]
      exact (List.pairwise_cons.mp hpw).1 q.1 (List.mem_map_of_mem Prod.fst hq)

/-- Claim C1: Parity: replaying an ordered candle sequence through the adapter
(`PullbackBacktestAdapter.next`) and delivering the same sequence tick by
tick to the live loop (`LiveTrader.run`, starting on an aligned candle)
produce the same signal sequence, the same completed-trade log and the same
open position. -/
theorem live_backtest_parity (inputs : List (ℕ × Candle))
    (hmono : (inputs.map Prod.fst).Pairwise (· < ·))
    (halign : ∀ p, inputs.head? = some p → p.1 % 60 % 5 = 0) :
    (liveRun "BTCUSDT" inputs).signals = (backtestRun inputs).signals ∧
    (liveRun "BTCUSDT" inputs).trades_log = (backtestRun inputs).trades_log ∧
    (liveRun "BTCUSDT" inputs).current_trade = (backtestRun inputs).current_trade := by
  have key : toBacktest (liveRun "BTCUSDT" inputs) = backtestRun inputs := by
    cases inputs with
    | nil => rfl
    | cons p rest =>
        unfold liveRun backtestRun
        rw [List.foldl_cons, List.foldl_cons]
        have hal : p.1 % 60 % 5 = 0 := halign p rfl
        obtain ⟨hstep, hs2, ha2, hl2⟩ := liveStep_sim (liveInit "BTCUSDT") p.1 p.2 rfl
          (by simp [liveInit]) (Or.inr hal)
        rw [List.map_cons] at hmono
        rw [liveRun_sim_aux rest _ hs2 ha2 (List.pairwise_cons.mp hmono).2 ?_, hstep]
        · rfl
        · intro u hu q hq
          rw [hl2] at hu
          have hup : p.1 = u := by injection hu
          rw [← hup]
          exact (List.pairwise_cons.mp hmono).1 q.1 (List.mem_map_of_mem Prod.fst hq)
  exact ⟨by rw [← key]; rfl, by rw [← key]; rfl, by rw [← key]; rfl⟩

theorem live_backtest_parity_witness :
    (liveRun "BTCUSDT" [(0, exR), (1, exG), (2, exG)]).signals
      = (backtestRun [(0, exR), (1, exG), (2, exG)]).signals ∧
    (liveRun "BTCUSDT" [(0, exR), (1, exG), (2, exG)]).trades_log
      = (backtestRun [(0, exR), (1, exG), (2, exG)]).trades_log ∧
    (liveRun "BTCUSDT" [(0, exR), (1, exG), (2, exG)]).current_trade
      = (backtestRun [(0, exR), (1, exG), (2, exG)]).current_trade :=
  live_backtest_parity [(0, exR), (1, exG), (2, exG)] (by decide)
    (by intro p hp; cases hp; decide)

/-- Claim C2: One-tick publication delay: after processing LTF ticks `0..t`, the
`n`-th HTF candle (0-indexed) is absent from the visible HTF history whenever
`t ≤ 5n+4`, and present (with the aggregated open/close) whenever
`t ≥ 5n+5`. -/
theorem htf_delay_correct (inputs : List (ℕ × Candle)) (n t : ℕ)
    (ht : t < inputs.length) :
    (t ≤ 5 * n + 4 →
      (backtestRun (inputs.take (t + 1))).htf_candles.length ≤ n) ∧
    (5 * n + 5 ≤ t →
      n < (backtestRun (inputs.take (t + 1))).htf_candles.length ∧
      (backtestRun (inputs.take (t + 1))).htf_candles.getD n default
        = mkHTF (inputs.map Prod.snd) n) := by
  obtain ⟨-, -, -, -, s5, -, -⟩ := backtestRun_aggSpec (inputs.take (t + 1))
  have hK : (inputs.take (t + 1)).length = t + 1 := by
    rw [List.length_take]
    omega
  rw [hK] at s5
  have hv : visibleCnt (t + 1) = t / 5 := by
    unfold visibleCnt
    rw [if_neg (by omega)]
    omega
  have hlen : (backtestRun (inputs.take (t + 1))).htf_candles.length = t / 5 := by
    rw [s5, List.length_map, List.length_range, hv]
  constructor
  · intro hle
    rw [hlen]
    omega
  · intro hge
    have hn : n < t / 5 := by omega
    refine ⟨by rw [hlen]; exact hn, ?_⟩
    rw [s5, hv, getD_range_map _ _ _ hn]
    exact mkHTF_take inputs _ n (by omega)

theorem htf_delay_correct_witness :
    (5 < ((List.range 6).map (fun i => (i, exG))).length) ∧
    ((5 ≤ 5 * 0 + 4 →
      (backtestRun (((List.range 6).map (fun i => (i, exG))).take (5 + 1))).htf_candles.length ≤ 0) ∧
    (5 * 0 + 5 ≤ 5 →
      0 < (backtestRun (((List.range 6).map (fun i => (i, exG))).take (5 + 1))).htf_candles.length ∧
      (backtestRun (((List.range 6).map (fun i => (i, exG))).take (5 + 1))).htf_candles.getD 0 default
        = mkHTF (((List.range 6).map (fun i => (i, exG))).map Prod.snd) 0)) :=
  ⟨by decide, htf_delay_correct ((List.range 6).map (fun i => (i, exG))) 0 5 (by decide)⟩

/-- Claim C3: Bucket correctness: the `n`-th synthesized HTF candle takes its
open from the LTF candle at position `5n` and its close from the LTF candle
at position `5n+4`; a fresh HTF candle sits in the pending slot exactly after
every 5th push, at which instant the bucket accumulator is empty. -/
theorem htf_bucket_correct (inputs : List (ℕ × Candle)) (n : ℕ)
    (h : 5 * n + 4 < inputs.length) :
    (backtestRun (inputs.take (5 * n + 5))).htf_pending
      = some (Candle.mk ((inputs.map Prod.snd).getD (5 * n) default).«open»
          ((inputs.map Prod.snd).getD (5 * n + 4) default).close) ∧
    (backtestRun (inputs.take (5 * n + 5))).htf_bucket = [] ∧
    (∀ k, k ≤ inputs.length →
      (((backtestRun (inputs.take k)).htf_pending ≠ none) ↔ (k ≠ 0 ∧ k % 5 = 0)) ∧
      (k % 5 = 0 → (backtestRun (inputs.take k)).htf_bucket = [])) := by
  refine ⟨?_, ?_, ?_⟩
  · obtain ⟨-, -, -, -, -, s6, -⟩ := backtestRun_aggSpec (inputs.take (5 * n + 5))
    have hK : (inputs.take (5 * n + 5)).length = 5 * n + 5 := by
      rw [List.length_take]
      omega
    rw [hK] at s6
    rw [s6, if_pos (by omega)]
    have hn : (5 * n + 5) / 5 - 1 = n := by omega
    rw [hn, mkHTF_take inputs _ n (by omega)]
    rfl
  · obtain ⟨-, -, s3, -, -, -, -⟩ := backtestRun_aggSpec (inputs.take (5 * n + 5))
    have hK : (inputs.take (5 * n + 5)).length = 5 * n + 5 := by
      rw [List.length_take]
      omega
    rw [hK] at s3
    rw [s3]
    have h5 : 5 * ((5 * n + 5) / 5) = 5 * n + 5 := by omega
    rw [h5]
    refine List.drop_eq_nil_of_le ?_
    rw [List.length_map, List.length_take]
    omega
  · intro k hk
    obtain ⟨-, -, s3, -, -, s6, -⟩ := backtestRun_aggSpec (inputs.take k)
    have hK : (inputs.take k).length = k := by
      rw [List.length_take]
      omega
    rw [hK] at s3 s6
    constructor
    · rw [s6]
      constructor
      · intro hne
        by_contra hcon
        rw [if_neg hcon] at hne
        exact hne rfl
      · intro hc
        rw [if_pos hc]
        simp
    · intro h5
      rw [s3]
      refine List.drop_eq_nil_of_le ?_
      rw [List.length_map, hK]
      omega

theorem htf_bucket_correct_witness :
    (5 * 0 + 4 < ((List.range 6).map (fun i => (i, exR))).length) ∧
    ((backtestRun ((((List.range 6)).map (fun i => (i, exR))).take (5 * 0 + 5))).htf_pending
      = some (Candle.mk ((((List.range 6).map (fun i => (i, exR))).map Prod.snd).getD (5 * 0) default).«open»
          ((((List.range 6).map (fun i => (i, exR))).map Prod.snd).getD (5 * 0 + 4) default).close) ∧
    (backtestRun ((((List.range 6)).map (fun i => (i, exR))).take (5 * 0 + 5))).htf_bucket = [] ∧
    (∀ k, k ≤ ((List.range 6).map (fun i => (i, exR))).length →
      (((backtestRun (((List.range 6).map (fun i => (i, exR))).take k)).htf_pending ≠ none)
          ↔ (k ≠ 0 ∧ k % 5 = 0)) ∧
      (k % 5 = 0 →
        (backtestRun (((List.range 6).map (fun i => (i, exR))).take k)).htf_bucket = []))) :=
  ⟨by decide, htf_bucket_correct ((List.range 6).map (fun i => (i, exR))) 0 (by decide)⟩

/-- Claim C4: If the most recent visible HTF candle is not bullish
(`close ≤ open`), `generate_signal` returns HOLD for every LTF history and
every position state: the HTF gate blocks BUY and SELL alike. -/
theorem htf_gate_hold (ltf htf : List Candle) (position_open : Bool)
    (c : Candle) (hlast : htf.getLast? = some c) (hc : c.close ≤ c.«open») :
    generate_signal ltf htf position_open = Signal.HOLD := by
  unfold generate_signal
  split
  · rfl
  · rw [getD_eq_getLast? hlast]
    have hg : c.is_green = false := by
      simp [Candle.is_green]
      exact hc
    rw [if_pos hg]

theorem htf_gate_hold_witness :
    ([(⟨2, 1⟩ : Candle)].getLast? = some ⟨2, 1⟩) ∧
    ((⟨2, 1⟩ : Candle).close ≤ (⟨2, 1⟩ : Candle).«open») ∧
    generate_signal [⟨2, 1⟩, ⟨1, 2⟩] [⟨2, 1⟩] true = Signal.HOLD :=
  ⟨by decide, by decide,
    htf_gate_hold [⟨2, 1⟩, ⟨1, 2⟩] [⟨2, 1⟩] true ⟨2, 1⟩ (by decide) (by decide)⟩

/-- Claim C5: With no position open, at least 2 LTF candles (list ending in
`[prev, cur]`), a bullish latest visible HTF candle, the result is BUY iff
the second-to-last LTF candle is bearish and the last is bullish. -/
theorem entry_buy_iff (l : List Candle) (prev cur : Candle)
    (htf : List Candle) (ch : Candle) (hlast : htf.getLast? = some ch)
    (hgreen : ch.close > ch.«open») :
    generate_signal (l ++ [prev, cur]) htf false = Signal.BUY ↔
      (prev.close < prev.«open» ∧ cur.close > cur.«open») := by
  have hne : htf ≠ [] := by
    intro h
    rw [h] at hlast
    exact Option.noConfusion hlast
  have hlen : 1 ≤ htf.length := List.length_pos.mpr hne
  have hred : prev.is_red = true ↔ prev.close < prev.«open» := by
    simp [Candle.is_red]
  have hcur : cur.is_green = true ↔ cur.close > cur.«open» := by
    simp [Candle.is_green]
  have hguard : ¬ ((l ++ [prev, cur]).length < 2 ∨ htf.length < 1) := by
    simp only [List.length_append, List.length_cons, List.length_nil, not_or, not_lt]
    omega
  unfold generate_signal
  rw [if_neg hguard]
  have h1 : (l ++ [prev, cur]).getD ((l ++ [prev, cur]).length - 1) default = cur := by
    have := getD_append_last l prev cur
    simp only [List.length_append, List.length_cons, List.length_nil]
    simpa using this
  have h2 : (l ++ [prev, cur]).getD ((l ++ [prev, cur]).length - 2) default = prev := by
    have := getD_append_pen l prev cur
    simp only [List.length_append, List.length_cons, List.length_nil]
    simpa using this
  rw [h1, h2, getD_eq_getLast? hlast]
  have hg : ch.is_green = true := by
    simp [Candle.is_green]
    exact hgreen
  rw [if_neg (by simp [hg])]
  by_cases hc : prev.close < prev.«open» ∧ cur.close > cur.«open»
  · rw [if_pos ⟨rfl, hred.mpr hc.1, hcur.mpr hc.2⟩]
    simp [hc]
  · rw [if_neg (fun h => hc ⟨hred.mp h.2.1, hcur.mp h.2.2⟩)]
    rw [if_neg (fun h => absurd h.1 (by simp))]
    simp [hc]

theorem entry_buy_iff_witness :
    (([(⟨1, 2⟩ : Candle)].getLast? = some ⟨1, 2⟩) ∧
      ((⟨1, 2⟩ : Candle).close > (⟨1, 2⟩ : Candle).«open»)) ∧
    (generate_signal ([] ++ [(⟨2, 1⟩ : Candle), ⟨1, 2⟩]) [⟨1, 2⟩] false = Signal.BUY ↔
      ((⟨2, 1⟩ : Candle).close < (⟨2, 1⟩ : Candle).«open» ∧
        (⟨1, 2⟩ : Candle).close > (⟨1, 2⟩ : Candle).«open»)) :=
  ⟨⟨by decide, by decide⟩,
    entry_buy_iff [] ⟨2, 1⟩ ⟨1, 2⟩ [⟨1, 2⟩] ⟨1, 2⟩ (by decide) (by decide)⟩

/-- Claim C6: With a position open, at least 2 LTF candles (list ending in
`[prev, cur]`), a bullish latest visible HTF candle, the result is SELL iff
the last LTF candle is bearish. -/
theorem exit_sell_iff (l : List Candle) (prev cur : Candle)
    (htf : List Candle) (ch : Candle) (hlast : htf.getLast? = some ch)
    (hgreen : ch.close > ch.«open») :
    generate_signal (l ++ [prev, cur]) htf true = Signal.SELL ↔
      cur.close < cur.«open» := by
  have hne : htf ≠ [] := by
    intro h
    rw [h] at hlast
    exact Option.noConfusion hlast
  have hlen : 1 ≤ htf.length := List.length_pos.mpr hne
  have hcur : cur.is_red = true ↔ cur.close < cur.«open» := by
    simp [Candle.is_red]
  have hguard : ¬ ((l ++ [prev, cur]).length < 2 ∨ htf.length < 1) := by
    simp only [List.length_append, List.length_cons, List.length_nil, not_or, not_lt]
    omega
  unfold generate_signal
  rw [if_neg hguard]
  have h1 : (l ++ [prev, cur]).getD ((l ++ [prev, cur]).length - 1) default = cur := by
    have := getD_append_last l prev cur
    simp only [List.length_append, List.length_cons, List.length_nil]
    simpa using this
  have h2 : (l ++ [prev, cur]).getD ((l ++ [prev, cur]).length - 2) default = prev := by
    have := getD_append_pen l prev cur
    simp only [List.length_append, List.length_cons, List.length_nil]
    simpa using this
  rw [h1, h2, getD_eq_getLast? hlast]
  have hg : ch.is_green = true := by
    simp [Candle.is_green]
    exact hgreen
  rw [if_neg (by simp [hg])]
  rw [if_neg (fun h => absurd h.1 (by simp))]
  by_cases hc : cur.close < cur.«open»
  · rw [if_pos ⟨rfl, hcur.mpr hc⟩]
    simp [hc]
  · rw [if_neg (fun h => hc (hcur.mp h.2))]
    simp [hc]

theorem exit_sell_iff_witness :
    (([(⟨1, 2⟩ : Candle)].getLast? = some ⟨1, 2⟩) ∧
      ((⟨1, 2⟩ : Candle).close > (⟨1, 2⟩ : Candle).«open»)) ∧
    (generate_signal ([] ++ [(⟨1, 2⟩ : Candle), ⟨2, 1⟩]) [⟨1, 2⟩] true = Signal.SELL ↔
      (⟨2, 1⟩ : Candle).close < (⟨2, 1⟩ : Candle).«open») :=
  ⟨⟨by decide, by decide⟩,
    exit_sell_iff [] ⟨1, 2⟩ ⟨2, 1⟩ [⟨1, 2⟩] ⟨1, 2⟩ (by decide) (by decide)⟩

/-- Claim C7: Fewer than 2 LTF candles or fewer than 1 visible HTF candle means
HOLD: no non-HOLD decision before the minimum data has accumulated. -/
theorem min_data_hold (ltf htf : List Candle) (position_open : Bool)
    (h : ltf.length < 2 ∨ htf.length < 1) :
    generate_signal ltf htf position_open = Signal.HOLD := by
  unfold generate_signal
  rw [if_pos h]

theorem min_data_hold_witness :
    (([] : List Candle).length < 2 ∨ ([] : List Candle).length < 1) ∧
    generate_signal [] [] false = Signal.HOLD :=
  ⟨by decide, min_data_hold [] [] false (by decide)⟩

/-- Claim C8: The position tracker treats BUY while a position is open and SELL
while flat as no-ops: the position state and the completed-trade log are
returned unchanged. -/
theorem noop_signals (symbol : String) (ts : ℕ) (price : ℚ)
    (candle_count htf_count : ℕ) (t : OpenTrade) (log : List TradeRecord) :
    executeOrders symbol Signal.BUY ts price candle_count htf_count (some t) log
        = (some t, log) ∧
    executeOrders symbol Signal.SELL ts price candle_count htf_count none log
        = (none, log) :=
  ⟨rfl, rfl⟩

/-- Claim C9: `generate_signal` is deterministic and stateless: it is a pure
function of exactly its three arguments, so two invocations (from either
driver) with equal LTF histories, equal visible HTF histories and equal
position flags return the same signal. -/
theorem signal_deterministic (ltf₁ htf₁ : List Candle) (p₁ : Bool)
    (ltf₂ htf₂ : List Candle) (p₂ : Bool)
    (hl : ltf₁ = ltf₂) (hh : htf₁ = htf₂) (hp : p₁ = p₂) :
    generate_signal ltf₁ htf₁ p₁ = generate_signal ltf₂ htf₂ p₂ := by
  rw [hl, hh, hp]

theorem signal_deterministic_witness :
    generate_signal [⟨2, 1⟩, ⟨1, 2⟩] [⟨1, 2⟩] false =
      generate_signal [⟨2, 1⟩, ⟨1, 2⟩] [⟨1, 2⟩] false :=
  signal_deterministic [⟨2, 1⟩, ⟨1, 2⟩] [⟨1, 2⟩] false
    [⟨2, 1⟩, ⟨1, 2⟩] [⟨1, 2⟩] false rfl rfl rfl

/-- Claim C10: BUY is only produced with `position_open = false` and SELL only
with `position_open = true`; hence when a driver passes
`position_open = current_trade.isSome` (as both call sites do), a BUY can
only arrive while `current_trade` is `none` and a SELL only while it is
`some`, so the no-op guards of the trackers are unreachable. -/
theorem signal_respects_position (ltf htf : List Candle) (p : Bool)
    (ct : Option OpenTrade) :
    (generate_signal ltf htf p = Signal.BUY → p = false) ∧
    (generate_signal ltf htf p = Signal.SELL → p = true) ∧
    (generate_signal ltf htf ct.isSome = Signal.BUY → ct = none) ∧
    (generate_signal ltf htf ct.isSome = Signal.SELL → ct ≠ none) := by
  have key : ∀ (q : Bool),
      (generate_signal ltf htf q = Signal.BUY → q = false) ∧
      (generate_signal ltf htf q = Signal.SELL → q = true) := by
    intro q
    simp only [generate_signal]
    split
    · exact ⟨fun h => Signal.noConfusion h, fun h => Signal.noConfusion h⟩
    · split
      · exact ⟨fun h => Signal.noConfusion h, fun h => Signal.noConfusion h⟩
      · split
        · rename_i hc
          exact ⟨fun _ => hc.1, fun h => Signal.noConfusion h⟩
        · split
          · rename_i hc
            exact ⟨fun h => Signal.noConfusion h, fun _ => hc.1⟩
          · exact ⟨fun h => Signal.noConfusion h, fun h => Signal.noConfusion h⟩
  refine ⟨(key p).1, (key p).2, fun h => ?_, fun h => ?_⟩
  · have := (key ct.isSome).1 h
    cases ct with
    | none => rfl
    | some t => simp at this
  · have := (key ct.isSome).2 h
    intro hn
    rw [hn] at this
    simp at this

theorem signal_respects_position_witness :
    (false = false) ∧ ((none : Option OpenTrade) = none) :=
  ⟨(signal_respects_position [⟨2, 1⟩, ⟨1, 2⟩] [⟨1, 2⟩] false none).1 (by decide),
    (signal_respects_position [⟨2, 1⟩, ⟨1, 2⟩] [⟨1, 2⟩] false none).2.2.1 (by decide)⟩

end PullbackEngine
